import Mathlib

/-!
Verification of the restaurant-management database population script
(src/SQL.py) against its specification.

The script drops and recreates a ten-table SQLite schema, populates the
Customers table (1500 rows, with an email-uniqueness regeneration loop) and
the Menu_Items table (100 rows), declares indexes and commits once.  The
population of the remaining tables is absent from the source (line 191 reads
"Similar population logic continues for other tables...") and is modelled
from the spec where a claim needs it; such definitions carry a doc comment
starting with "Modelled from the spec:".

Randomness is embedded as explicit oracles: every random.* / faker.* call
reads from an oracle field or stream, so each generator is a pure function
of its oracles.  The unbounded `while email in generated_emails` loop is
given explicit fuel; `none` means the loop has not terminated within fuel.
-/

namespace Restaurant

/-- Model of `random.randint(a, b)` (both bounds inclusive): the draw is a
function of an oracle seed `n`. -/
def randint (a b : ℤ) (n : ℕ) : ℤ := a + (n : ℤ) % (b - a + 1)

/-- Model of `random.uniform(a, b)`: the oracle rational `q` is folded into
`[0, 1)` by `Int.fract` and then scaled onto the interval. -/
def uniform (a b : ℚ) (q : ℚ) : ℚ := a + (b - a) * Int.fract q

/-- Model of Python `round(x, 2)` (round to two decimal places; the exact
tie-breaking rule plays no role in any property proved below). -/
def round2 (x : ℚ) : ℚ := (round (x * 100) : ℚ) / 100

/-- Model of `random.choice(xs)` for a list: the oracle seed picks an index.
The default `d` is never reachable when `xs` is nonempty. -/
def choiceD {α : Type} (xs : List α) (d : α) (n : ℕ) : α :=
  xs.getD (n % xs.length) d

/-- Selection of an already-inserted parent identity: parent ids are the
AUTOINCREMENT values `1 .. numParents`. -/
def pickParent (numParents : ℕ) (n : ℕ) : ℕ := 1 + n % numParents

/-! ## Customers (src/SQL.py lines 31-41 and 152-164) -/

/-- A row of the `Customers` table. -/
structure Customer where
  customer_id : ℕ
  name : String
  email : Option String
  phone : String
  loyalty_tier : String
  address : String
  registered_date : String
deriving DecidableEq

/-- Oracle for one iteration of the customer loop: `r` models the
`random.random()` draw, `emails k` the k-th `faker.email()` call made during
the iteration, and the remaining fields the other faker draws. -/
structure CustOracle where
  r : ℚ
  emails : ℕ → String
  name : String
  phone : String
  tier : ℕ
  address : String
  date : String

/-- The enumerated loyalty tiers (src line 163 / CHECK on line 37). -/
def loyalty_tiers : List String := ["Bronze", "Silver", "Gold"]

/-- The `while email in generated_emails:` regeneration loop (src lines
156-157): keep drawing `emails k` until a value outside `used` appears.
`fuel` bounds the number of membership tests; `none` means the loop has not
terminated within `fuel` attempts. -/
def regenEmail (emails : ℕ → String) (used : List String) : ℕ → ℕ → Option String
  | 0, _ => none
  | fuel + 1, k =>
    if emails k ∈ used then regenEmail emails used fuel (k + 1)
    else some (emails k)

/-- `email = None if random.random() < 0.1 else faker.email()` followed by
the regeneration loop (src lines 154-158).  The result `some none` is a NULL
email; faker emails are nonempty strings, so Python truthiness of `email`
coincides with being non-None. -/
def genEmail (o : CustOracle) (used : List String) (fuel : ℕ) : Option (Option String) :=
  if o.r < 1 / 10 then some none
  else (regenEmail o.emails used fuel 0).map some

/-- The customer population loop (src lines 152-164): `count` remaining
iterations, `i` completed iterations (the AUTOINCREMENT id of the next row
is `i + 1`), `used` the current `generated_emails` set, represented as the
list of values in insertion order.  Returns the inserted rows together with
the final set, or `none` when some regeneration loop exceeds `fuel`. -/
def genCustomers (os : ℕ → CustOracle) (fuel : ℕ) :
    ℕ → ℕ → List String → Option (List Customer × List String)
  | 0, _, used => some ([], used)
  | count + 1, i, used =>
    match genEmail (os i) used fuel with
    | none => none
    | some em =>
      let used' := match em with
        | some e => used ++ [e]
        | none => used
      match genCustomers os fuel count (i + 1) used' with
      | none => none
      | some (cs, usedF) =>
        some ({ customer_id := i + 1, name := (os i).name, email := em,
                phone := (os i).phone,
                loyalty_tier := choiceD loyalty_tiers "Bronze" (os i).tier,
                address := (os i).address,
                registered_date := (os i).date } :: cs, usedF)

/-! ## Menu items (src/SQL.py lines 43-53 and 166-189) -/

/-- A row of the `Menu_Items` table. -/
structure MenuItem where
  item_id : ℕ
  item_name : String
  category : String
  price : ℚ
  ingredients : String
  calories : ℤ
  availability : String
deriving DecidableEq

/-- The `menu_items` name list (src line 167).  Note it lists two names,
"chef_specials" and "signature_dishes", that `item_category_map` does not
contain; the population loop draws from the map, not from this list. -/
def menu_items : List String :=
  ["Pizza", "Burger", "Pasta", "Caesar Salad", "Grilled Chicken",
   "Cheesecake", "Latte", "chef_specials", "signature_dishes"]

/-- The `ingredients_list` (src lines 168-170). -/
def ingredients_list : List String :=
  ["tomatoes", "cheese", "lettuce", "chicken", "flour", "sugar", "milk",
   "olive oil", "garlic"]

/-- `item_category_map` (src lines 171-179), in Python dict insertion order.
Keys are distinct, so choosing a key uniformly and looking it up is the same
as choosing an entry uniformly. -/
def item_category_map : List (String × String × List String) :=
  [("Latte", ("Beverage", ["milk", "coffee", "sugar"])),
   ("Cheesecake", ("Dessert", ["cream cheese", "sugar", "eggs"])),
   ("Pizza", ("Main Course", ["tomato sauce", "mozzarella", "basil"])),
   ("Caesar Salad", ("Appetizer", ["romaine", "croutons", "parmesan"])),
   ("Grilled Chicken", ("Main Course", ["chicken breast", "olive oil", "garlic"])),
   ("Pasta", ("Main Course", ["penne", "marinara", "parmesan"])),
   ("Burger", ("Main Course", ["beef patty", "lettuce", "tomato"]))]

/-- The enumerated categories of the CHECK constraint (src line 47). -/
def menu_categories : List String :=
  ["Appetizer", "Main Course", "Dessert", "Beverage", "Breakfast"]

/-- The two availability values (src lines 51 and 185). -/
def availability_choices : List String := ["Available", "Out of Stock"]

/-- Oracle for one iteration of the menu-item loop. -/
structure MenuOracle where
  pick : ℕ
  priceQ : ℚ
  cal : ℕ
  avail : ℕ

/-- The menu-item population loop (src lines 180-189):
`item_name = random.choice(list(item_category_map.keys()))` followed by the
map lookup, `price = round(random.uniform(5, 50), 2)`,
`calories = random.randint(100, 1000)` and a random availability. -/
def genMenuItems (os : ℕ → MenuOracle) : ℕ → ℕ → List MenuItem
  | 0, _ => []
  | count + 1, i =>
    let entry := choiceD item_category_map ("", ("", [])) (os i).pick
    { item_id := i + 1, item_name := entry.1, category := entry.2.1,
      price := round2 (uniform 5 50 (os i).priceQ),
      ingredients := String.intercalate ", " entry.2.2,
      calories := randint 100 1000 (os i).cal,
      availability := choiceD availability_choices "Available" (os i).avail }
      :: genMenuItems os count (i + 1)

/-! ## Remaining tables

The population code for the tables below is absent from the source (src line
191).  Their generators are modelled from the spec: parent tables get faker
attributes with unique-key tracking (spec section 4.1), child tables select a
parent identity uniformly from the already-generated parent ids
(spec section 4.2), and emitted rows satisfy the declared CHECK constraints
(spec section 4.1).  The row structures themselves follow the CREATE TABLE
statements, which are in the source. -/

/-- A row of the `Employees` table (schema: src lines 80-90). -/
structure Employee where
  employee_id : ℕ
  name : String
  role : String
  salary : ℚ
  hire_date : String
  phone : String
  email : String
deriving DecidableEq

/-- Oracle for one modelled employee row. -/
structure EmpOracle where
  emails : ℕ → String
  name : String
  role : ℕ
  salaryQ : ℚ
  hire : String
  phone : String

/-- The enumerated roles of the CHECK constraint (src line 84). -/
def employee_roles : List String :=
  ["Manager", "Chef", "Waiter", "Host", "Team Member", "Cleaner"]

/-- Modelled from the spec: the Employees population loop is missing from the
source.  Per spec sections 3 and 4.1, employee rows carry faker attributes
and a non-null email kept "unique across all rows" by tracking previously
used values (the set is continued from the customer emails) and regenerating
on collision. -/
def genEmployees (os : ℕ → EmpOracle) (fuel : ℕ) :
    ℕ → ℕ → List String → Option (List Employee × List String)
  | 0, _, used => some ([], used)
  | count + 1, i, used =>
    match regenEmail (os i).emails used fuel 0 with
    | none => none
    | some e =>
      match genEmployees os fuel count (i + 1) (used ++ [e]) with
      | none => none
      | some (es, usedF) =>
        some ({ employee_id := i + 1, name := (os i).name,
                role := choiceD employee_roles "Chef" (os i).role,
                salary := round2 (uniform 1500 6000 (os i).salaryQ),
                hire_date := (os i).hire, phone := (os i).phone,
                email := e } :: es, usedF)

/-- A row of the `Suppliers` table (schema: src lines 104-113). -/
structure Supplier where
  supplier_id : ℕ
  name : String
  phone : String
  email : String
  address : String
  supply_category : String
deriving DecidableEq

/-- Oracle for one modelled supplier row. -/
structure SupOracle where
  emails : ℕ → String
  name : String
  phone : String
  address : String
  cat : String

/-- Modelled from the spec: the Suppliers population loop is missing from the
source.  Supplier emails are UNIQUE NOT NULL in the schema, so the generator
tracks its own used-value set and regenerates on collision (spec 4.1). -/
def genSuppliers (os : ℕ → SupOracle) (fuel : ℕ) :
    ℕ → ℕ → List String → Option (List Supplier × List String)
  | 0, _, used => some ([], used)
  | count + 1, i, used =>
    match regenEmail (os i).emails used fuel 0 with
    | none => none
    | some e =>
      match genSuppliers os fuel count (i + 1) (used ++ [e]) with
      | none => none
      | some (ss, usedF) =>
        some ({ supplier_id := i + 1, name := (os i).name,
                phone := (os i).phone, email := e,
                address := (os i).address,
                supply_category := (os i).cat } :: ss, usedF)

/-- A row of the `Tables` table (schema: src lines 92-102). -/
structure TableRow where
  table_no : ℕ
  status : String
  seating_capacity : ℤ
  location : String
  reservation_allowed : String
  waiter_assigned : ℕ
deriving DecidableEq

/-- Oracle for one modelled table row. -/
structure TableOracle where
  status : ℕ
  capacity : ℕ
  location : String
  reserv : ℕ
  waiter : ℕ

/-- The enumerated table statuses (src line 95). -/
def table_statuses : List String := ["Available", "Reserved", "Occupied"]

/-- The two reservation_allowed values (src line 98). -/
def yes_no : List String := ["Yes", "No"]

/-- Modelled from the spec: the Tables population loop is missing from the
source.  `waiter_assigned` selects a parent identity uniformly from the
already-generated employee ids `1 .. nEmployees` (spec 4.2). -/
def genTables (nEmployees : ℕ) (os : ℕ → TableOracle) : ℕ → ℕ → List TableRow
  | 0, _ => []
  | count + 1, i =>
    { table_no := i + 1,
      status := choiceD table_statuses "Available" (os i).status,
      seating_capacity := randint 2 10 (os i).capacity,
      location := (os i).location,
      reservation_allowed := choiceD yes_no "Yes" (os i).reserv,
      waiter_assigned := pickParent nEmployees (os i).waiter }
      :: genTables nEmployees os count (i + 1)

/-- A row of the `Orders` table (schema: src lines 55-66). -/
structure Order where
  order_id : ℕ
  customer_id : ℕ
  order_date : String
  table_no : ℕ
  total_amount : ℚ
  payment_status : String
  priority : String
deriving DecidableEq

/-- Oracle for one modelled order row. -/
structure OrderOracle where
  cust : ℕ
  date : String
  tab : ℕ
  amountQ : ℚ
  status : ℕ
  prio : ℕ

/-- The enumerated payment statuses (src line 62). -/
def payment_statuses : List String := ["Paid", "Pending", "Failed"]

/-- The enumerated priorities (src line 63). -/
def order_priorities : List String := ["Low", "Medium", "High"]

/-- Modelled from the spec: the Orders population loop is missing from the
source.  `customer_id` selects a parent identity uniformly from the
already-generated customer ids `1 .. nCustomers` (spec 4.2, and spec 8:
"populate N orders each referencing a customer_id between 1 and 1500");
`total_amount` is generated positive, satisfying the CHECK (spec 4.1). -/
def genOrders (nCustomers nTables : ℕ) (os : ℕ → OrderOracle) : ℕ → ℕ → List Order
  | 0, _ => []
  | count + 1, i =>
    { order_id := i + 1,
      customer_id := pickParent nCustomers (os i).cust,
      order_date := (os i).date,
      table_no := pickParent nTables (os i).tab,
      total_amount := round2 (uniform 5 200 (os i).amountQ),
      payment_status := choiceD payment_statuses "Paid" (os i).status,
      priority := choiceD order_priorities "Medium" (os i).prio }
      :: genOrders nCustomers nTables os count (i + 1)

/-- A row of the `Order_Details` table (schema: src lines 68-78). -/
structure OrderDetail where
  detail_id : ℕ
  order_id : ℕ
  item_id : ℕ
  quantity : ℤ
  price_per_item : ℚ
deriving DecidableEq

/-- Oracle for one modelled order-detail row. -/
structure DetailOracle where
  ord : ℕ
  item : ℕ
  qty : ℕ
  priceQ : ℚ

/-- Modelled from the spec: the Order_Details population loop is missing from
the source.  `order_id` and `item_id` select parent identities uniformly from
the already-generated order and menu-item ids (spec 4.2); quantity and price
satisfy the CHECKs (spec 4.1). -/
def genOrderDetails (nOrders nItems : ℕ) (os : ℕ → DetailOracle) : ℕ → ℕ → List OrderDetail
  | 0, _ => []
  | count + 1, i =>
    { detail_id := i + 1,
      order_id := pickParent nOrders (os i).ord,
      item_id := pickParent nItems (os i).item,
      quantity := randint 1 5 (os i).qty,
      price_per_item := round2 (uniform 5 50 (os i).priceQ) }
      :: genOrderDetails nOrders nItems os count (i + 1)

/-- A row of the `Inventory` table (schema: src lines 115-124). -/
structure InventoryRow where
  inventory_id : ℕ
  item_name : String
  quantity : ℤ
  supplier_id : ℕ
  restock_date : String
deriving DecidableEq

/-- Oracle for one modelled inventory row. -/
structure InvOracle where
  item : ℕ
  qty : ℕ
  sup : ℕ
  restock : String

/-- Modelled from the spec: the Inventory population loop is missing from the
source.  `supplier_id` selects a parent identity uniformly from the
already-generated supplier ids (spec 4.2); quantity is non-negative per the
CHECK (spec 4.1). -/
def genInventory (nSuppliers : ℕ) (os : ℕ → InvOracle) : ℕ → ℕ → List InventoryRow
  | 0, _ => []
  | count + 1, i =>
    { inventory_id := i + 1,
      item_name := choiceD ingredients_list "flour" (os i).item,
      quantity := randint 0 500 (os i).qty,
      supplier_id := pickParent nSuppliers (os i).sup,
      restock_date := (os i).restock }
      :: genInventory nSuppliers os count (i + 1)

/-- A row of the `Feedback` table (schema: src lines 126-137). -/
structure FeedbackRow where
  feedback_id : ℕ
  customer_id : ℕ
  order_id : ℕ
  rating : ℤ
  comments : String
  feedback_date : String
deriving DecidableEq

/-- Oracle for one modelled feedback row. -/
structure FbOracle where
  cust : ℕ
  ord : ℕ
  rate : ℕ
  comments : String
  date : String

/-- Modelled from the spec: the Feedback population loop is missing from the
source.  `customer_id` and `order_id` select parent identities uniformly from
the already-generated customer and order ids (spec 4.2); the rating is drawn
from 1..5, satisfying the CHECK `rating BETWEEN 1 AND 5` (spec 4.1 and 8:
"rating in [1,5]"). -/
def genFeedback (nCustomers nOrders : ℕ) (os : ℕ → FbOracle) : ℕ → ℕ → List FeedbackRow
  | 0, _ => []
  | count + 1, i =>
    { feedback_id := i + 1,
      customer_id := pickParent nCustomers (os i).cust,
      order_id := pickParent nOrders (os i).ord,
      rating := randint 1 5 (os i).rate,
      comments := (os i).comments,
      feedback_date := (os i).date }
      :: genFeedback nCustomers nOrders os count (i + 1)

/-- A row of the `Menu_Supplier` junction table (schema: src lines 139-147). -/
structure MenuSupplierRow where
  menu_item_id : ℕ
  supplier_id : ℕ
deriving DecidableEq

/-- Oracle for one modelled menu-supplier link. -/
structure MSOracle where
  item : ℕ
  sup : ℕ

/-- Modelled from the spec: the Menu_Supplier population loop is missing from
the source.  Both foreign keys select parent identities uniformly from the
already-generated menu-item and supplier ids (spec 4.2). -/
def genMenuSupplier (nItems nSuppliers : ℕ) (os : ℕ → MSOracle) : ℕ → ℕ → List MenuSupplierRow
  | 0, _ => []
  | count + 1, i =>
    { menu_item_id := pickParent nItems (os i).item,
      supplier_id := pickParent nSuppliers (os i).sup }
      :: genMenuSupplier nItems nSuppliers os count (i + 1)

/-! ## The whole population run -/

/-- All oracle streams consumed by one run of the script. -/
structure RunOracle where
  cust : ℕ → CustOracle
  menu : ℕ → MenuOracle
  emp : ℕ → EmpOracle
  sup : ℕ → SupOracle
  tabs : ℕ → TableOracle
  ords : ℕ → OrderOracle
  dets : ℕ → DetailOracle
  inv : ℕ → InvOracle
  fb : ℕ → FbOracle
  ms : ℕ → MSOracle

/-- Row counts for the tables whose population loops are missing from the
source (the source fixes 1500 customers and 100 menu items). -/
structure RunCounts where
  nEmployees : ℕ
  nSuppliers : ℕ
  nTables : ℕ
  nOrders : ℕ
  nDetails : ℕ
  nInventory : ℕ
  nFeedback : ℕ
  nMS : ℕ
deriving DecidableEq

/-- The rows inserted by one successful run, per table. -/
structure RunResult where
  customers : List Customer
  menuItems : List MenuItem
  employees : List Employee
  suppliers : List Supplier
  tables : List TableRow
  orders : List Order
  orderDetails : List OrderDetail
  inventory : List InventoryRow
  feedback : List FeedbackRow
  menuSupplier : List MenuSupplierRow
deriving DecidableEq

/-- One run of the population phase: the source populates 1500 customers
(src line 153) then 100 menu items (src line 180); the remaining tables are
populated parent-before-child as modelled from spec section 2 (Reference
Data Generator before Dependent Data Generator; Tables after Employees since
`waiter_assigned` references Employees).  Employee emails continue the
customer email set (spec: "unique across all rows").  Returns `none` when a
regeneration loop exceeds `fuel`. -/
def runScript (o : RunOracle) (c : RunCounts) (fuel : ℕ) : Option RunResult :=
  match genCustomers o.cust fuel 1500 0 [] with
  | none => none
  | some (cs, used1) =>
    let ms := genMenuItems o.menu 100 0
    match genEmployees o.emp fuel c.nEmployees 0 used1 with
    | none => none
    | some (es, _) =>
      match genSuppliers o.sup fuel c.nSuppliers 0 [] with
      | none => none
      | some (ss, _) =>
        some { customers := cs, menuItems := ms, employees := es,
               suppliers := ss,
               tables := genTables c.nEmployees o.tabs c.nTables 0,
               orders := genOrders 1500 c.nTables o.ords c.nOrders 0,
               orderDetails := genOrderDetails c.nOrders 100 o.dets c.nDetails 0,
               inventory := genInventory c.nSuppliers o.inv c.nInventory 0,
               feedback := genFeedback 1500 c.nOrders o.fb c.nFeedback 0,
               menuSupplier := genMenuSupplier 100 c.nSuppliers o.ms c.nMS 0 }

/-! ## Insertion events and referential integrity -/

/-- The parent tables that foreign keys of this schema can reference
(`Orders.table_no` carries no FOREIGN KEY clause, src line 60). -/
inductive Tbl where
  | customers
  | menuItems
  | employees
  | suppliers
  | orders
deriving DecidableEq

/-- A single INSERT, tagged with its table. -/
inductive Event where
  | customer (c : Customer)
  | menuItem (m : MenuItem)
  | employee (e : Employee)
  | supplier (s : Supplier)
  | tableRow (t : TableRow)
  | order (o : Order)
  | orderDetail (d : OrderDetail)
  | inventory (i : InventoryRow)
  | feedback (f : FeedbackRow)
  | menuSupplier (l : MenuSupplierRow)
deriving DecidableEq

/-- The foreign-key references a row carries, as (parent table, parent id)
pairs, read off the FOREIGN KEY clauses of the schema. -/
def Event.refs : Event → List (Tbl × ℕ)
  | .customer _ => []
  | .menuItem _ => []
  | .employee _ => []
  | .supplier _ => []
  | .tableRow t => [(.employees, t.waiter_assigned)]
  | .order o => [(.customers, o.customer_id)]
  | .orderDetail d => [(.orders, d.order_id), (.menuItems, d.item_id)]
  | .inventory i => [(.suppliers, i.supplier_id)]
  | .feedback f => [(.customers, f.customer_id), (.orders, f.order_id)]
  | .menuSupplier l => [(.menuItems, l.menu_item_id), (.suppliers, l.supplier_id)]

/-- The surrogate identity an event contributes as a potential parent. -/
def Event.idOf : Event → Option (Tbl × ℕ)
  | .customer c => some (.customers, c.customer_id)
  | .menuItem m => some (.menuItems, m.item_id)
  | .employee e => some (.employees, e.employee_id)
  | .supplier s => some (.suppliers, s.supplier_id)
  | .order o => some (.orders, o.order_id)
  | _ => none

/-- The ids of table `t` provided by a list of insertion events. -/
def providedIds (t : Tbl) (evs : List Event) : List ℕ :=
  evs.filterMap fun e =>
    match e.idOf with
    | some (t', i) => if t' = t then some i else none
    | none => none

/-- Referential integrity of an insertion sequence: every foreign key of the
event at position `i` equals the identity of a parent row inserted strictly
before position `i`. -/
def ParentBeforeChild (evs : List Event) : Prop :=
  ∀ i e, evs[i]? = some e → ∀ p ∈ e.refs, p.2 ∈ providedIds p.1 (evs.take i)

/-- The insertion sequence of one successful run, in the order the script
executes the INSERT statements. -/
def runEvents (r : RunResult) : List Event :=
  r.customers.map .customer ++ r.menuItems.map .menuItem
    ++ r.employees.map .employee ++ r.suppliers.map .supplier
    ++ r.tables.map .tableRow ++ r.orders.map .order
    ++ r.orderDetails.map .orderDetail ++ r.inventory.map .inventory
    ++ r.feedback.map .feedback ++ r.menuSupplier.map .menuSupplier

/-! ## The insertion / commit model

SQLite enforces the declared constraints at each INSERT; the script wraps the
whole population in one transaction whose only `conn.commit()` is after every
INSERT has executed (src line 202), and it installs no exception handler, so
a failing INSERT propagates and the run dies before reaching the commit. -/

/-- The CHECK constraints of each table, read off the CREATE TABLE
statements. -/
def checkOk : Event → Bool
  | .customer c => c.loyalty_tier ∈ loyalty_tiers
  | .menuItem m => m.category ∈ menu_categories && 0 < m.price && 0 ≤ m.calories
      && m.availability ∈ availability_choices
  | .employee e => e.role ∈ employee_roles && 0 < e.salary
  | .supplier _ => true
  | .tableRow t => t.status ∈ table_statuses && 0 < t.seating_capacity
      && t.reservation_allowed ∈ yes_no
  | .order o => 0 < o.total_amount && o.payment_status ∈ payment_statuses
      && o.priority ∈ order_priorities
  | .orderDetail d => 0 < d.quantity && 0 < d.price_per_item
  | .inventory i => 0 ≤ i.quantity
  | .feedback f => 1 ≤ f.rating && f.rating ≤ 5
  | .menuSupplier _ => true

/-- The UNIQUE constraints on email columns: the new row's email must differ
from every email already inserted into the same table. -/
def uniqueOk (prior : List Event) (e : Event) : Bool :=
  match e with
  | .customer c =>
      match c.email with
      | none => true
      | some em => prior.all fun p =>
          match p with
          | .customer c' => c'.email ≠ some em
          | _ => true
  | .employee e' => prior.all fun p =>
      match p with
      | .employee p' => p'.email ≠ e'.email
      | _ => true
  | .supplier s => prior.all fun p =>
      match p with
      | .supplier p' => p'.email ≠ s.email
      | _ => true
  | _ => true

/-- A single INSERT succeeds iff the row passes its CHECK constraints, every
foreign key resolves among the already-inserted rows, and no UNIQUE column
collides. -/
def rowOk (prior : List Event) (e : Event) : Bool :=
  checkOk e && (e.refs.all fun p => p.2 ∈ providedIds p.1 prior) && uniqueOk prior e

/-- Execute the INSERT statements in order: stop at the first constraint
violation, reporting the offending row. -/
def insertAll : List Event → List Event → Except Event (List Event)
  | [], acc => .ok acc
  | e :: es, acc =>
    if rowOk acc e then insertAll es (acc ++ [e]) else .error e

/-- The transaction discipline of the script: the rows become the persisted
table contents only at the single `conn.commit()` after all INSERT
statements; a constraint violation kills the run first, leaving the
persisted rows as they were when the insertion phase began. -/
def commitRun (persisted : List Event) (evs : List Event) : List Event :=
  match insertAll evs [] with
  | .ok final => final
  | .error _ => persisted

/-- The Customers INSERT sequence against the UNIQUE(email) constraint
alone: `seen` is the set of emails already inserted; the first duplicate
non-null email aborts with that row. -/
def insertCusts : List Customer → List String → Except Customer Unit
  | [], _ => .ok ()
  | c :: cs, seen =>
    match c.email with
    | none => insertCusts cs seen
    | some e => if e ∈ seen then .error c else insertCusts cs (seen ++ [e])

/-! ## The clean-slate phase (src lines 21-27) -/

/-- `tables_to_drop` (src lines 22-25), in source order. -/
def tables_to_drop : List String :=
  ["Order_Details", "Orders", "Reservations", "Menu_Items", "Customers",
   "Employees", "Suppliers", "Inventory", "Feedback", "Tables", "Menu_Supplier"]

/-- A database file, as table contents keyed by table name. -/
def DBFile : Type := String → List Event

/-- The `DROP TABLE IF EXISTS` loop: every listed table loses all of its
rows (a dropped table holds none); other tables are untouched. -/
def dropPhase (db : DBFile) : DBFile :=
  fun t => if t ∈ tables_to_drop then [] else db t

/-- The fresh contents the run gives each table. -/
def tablesOf (r : RunResult) : DBFile := fun t =>
  if t = "Customers" then r.customers.map .customer
  else if t = "Menu_Items" then r.menuItems.map .menuItem
  else if t = "Employees" then r.employees.map .employee
  else if t = "Suppliers" then r.suppliers.map .supplier
  else if t = "Tables" then r.tables.map .tableRow
  else if t = "Orders" then r.orders.map .order
  else if t = "Order_Details" then r.orderDetails.map .orderDetail
  else if t = "Inventory" then r.inventory.map .inventory
  else if t = "Feedback" then r.feedback.map .feedback
  else if t = "Menu_Supplier" then r.menuSupplier.map .menuSupplier
  else []

/-- The whole script against an existing database file: drop the eleven
tables, recreate them, repopulate, commit.  Tables outside the drop list
keep their prior contents. -/
def scriptRun (db : DBFile) (o : RunOracle) (c : RunCounts) (fuel : ℕ) :
    Option DBFile :=
  (runScript o c fuel).map fun r t =>
    if t ∈ tables_to_drop then tablesOf r t else db t

/-! ## Concrete inputs used to exercise the definitions -/

/-- A customer-iteration oracle whose `random.random()` draw always takes
the NULL-email branch. -/
def custOracleNull : CustOracle :=
  { r := 0, emails := fun _ => "c@x", name := "n", phone := "p", tier := 0,
    address := "a", date := "d" }

/-- A customer-iteration oracle whose first candidate email is always "a",
with "b" as every regenerated candidate: running two iterations forces a
collision on the second one. -/
def custOracleAB : CustOracle :=
  { r := 1, emails := fun k => if k = 0 then "a" else "b", name := "n",
    phone := "p", tier := 0, address := "x", date := "d" }

/-- A customer-iteration oracle whose k-th candidate email is the string of
`k` letters 'a': all candidates are distinct, so the stream escapes any
finite used set. -/
def custOracleInj : CustOracle :=
  { r := 1, emails := fun k => String.mk (List.replicate k 'a'), name := "n",
    phone := "p", tier := 0, address := "x", date := "d" }

/-- A concrete full-run oracle. -/
def witnessOracle : RunOracle :=
  { cust := fun _ => custOracleNull,
    menu := fun _ => ⟨0, 0, 0, 0⟩,
    emp := fun _ => ⟨fun _ => "e@x", "n", 0, 0, "h", "p"⟩,
    sup := fun _ => ⟨fun _ => "s@x", "n", "p", "a", "c"⟩,
    tabs := fun _ => ⟨0, 0, "l", 0, 0⟩,
    ords := fun _ => ⟨0, "d", 0, 0, 0, 0⟩,
    dets := fun _ => ⟨0, 0, 0, 0⟩,
    inv := fun _ => ⟨0, 0, 0, "r"⟩,
    fb := fun _ => ⟨0, 0, 0, "c", "d"⟩,
    ms := fun _ => ⟨0, 0⟩ }

/-- One row in each table whose count the source does not fix. -/
def witnessCounts : RunCounts :=
  { nEmployees := 1, nSuppliers := 1, nTables := 1, nOrders := 1,
    nDetails := 1, nInventory := 1, nFeedback := 1, nMS := 1 }

/-- The customer rows generated from `custOracleNull` iterations. -/
def nullCustomers : ℕ → ℕ → List Customer
  | 0, _ => []
  | n + 1, i => ⟨i + 1, "n", none, "p", "Bronze", "a", "d"⟩ :: nullCustomers n (i + 1)

/-- The result of running the script on `witnessOracle` / `witnessCounts`
with fuel 1. -/
def witnessRunResult : RunResult :=
  { customers := nullCustomers 1500 0,
    menuItems := genMenuItems witnessOracle.menu 100 0,
    employees := [⟨1, "n", "Manager", round2 (uniform 1500 6000 0), "h", "p", "e@x"⟩],
    suppliers := [⟨1, "n", "p", "s@x", "a", "c"⟩],
    tables := genTables 1 witnessOracle.tabs 1 0,
    orders := genOrders 1500 1 witnessOracle.ords 1 0,
    orderDetails := genOrderDetails 1 100 witnessOracle.dets 1 0,
    inventory := genInventory 1 witnessOracle.inv 1 0,
    feedback := [⟨1, 1, 1, 1, "c", "d"⟩],
    menuSupplier := genMenuSupplier 100 1 witnessOracle.ms 1 0 }

/-- A concrete order row (the one `witnessOracle` generates). -/
def witnessOrder : Order :=
  ⟨1, 1, "d", 1, round2 (uniform 5 200 0), "Paid", "Low"⟩

/-- A concrete feedback row (the one `witnessOracle` generates). -/
def witnessFeedback : FeedbackRow := ⟨1, 1, 1, 1, "c", "d"⟩

/-- A concrete menu-item row (the one `witnessOracle` generates). -/
def witnessMenuItem : MenuItem :=
  ⟨1, "Latte", "Beverage", round2 (uniform 5 50 0), "milk, coffee, sugar",
   100, "Available"⟩

/-- A feedback row violating the CHECK `rating BETWEEN 1 AND 5`. -/
def badFeedbackEvent : Event := .feedback ⟨1, 1, 1, 9, "c", "d"⟩

/-- A one-row prior database state. -/
def priorDB : DBFile := fun _ => [.customer ⟨1, "n", none, "p", "Bronze", "a", "d"⟩]

/-! ## Lemmas about the random primitives -/

theorem pickParent_mem {n : ℕ} (hn : 0 < n) (k : ℕ) :
    pickParent n k ∈ List.range' 1 n := by
  rw [List.mem_range'_1]
  have := Nat.mod_lt k hn
  unfold pickParent
  omega

theorem randint_bounds {a b : ℤ} (h : a ≤ b) (n : ℕ) :
    a ≤ randint a b n ∧ randint a b n ≤ b := by
  have hm : (0:ℤ) < b - a + 1 := by omega
  have h1 : 0 ≤ (n : ℤ) % (b - a + 1) := Int.emod_nonneg _ (by omega)
  have h2 : (n : ℤ) % (b - a + 1) < b - a + 1 := Int.emod_lt_of_pos _ hm
  unfold randint
  omega

theorem uniform_ge {a b : ℚ} (h : a ≤ b) (q : ℚ) : a ≤ uniform a b q := by
  have h1 : 0 ≤ Int.fract q := Int.fract_nonneg q
  have h2 : 0 ≤ (b - a) * Int.fract q := by
    apply mul_nonneg _ h1
    linarith
  unfold uniform
  linarith

theorem round2_pos {x : ℚ} (h : 1 ≤ x) : 0 < round2 x := by
  have h1 : (100:ℚ) ≤ x * 100 + 1 / 2 := by linarith
  have h2 : (100:ℤ) ≤ ⌊x * 100 + 1 / 2⌋ := by
    have := Int.floor_mono h1
    simpa using this
  have h3 : (100:ℚ) ≤ (round (x * 100) : ℚ) := by
    rw [round_eq]
    exact_mod_cast h2
  unfold round2
  linarith

theorem choiceD_mem {α : Type} {xs : List α} (h : xs ≠ []) (d : α) (n : ℕ) :
    choiceD xs d n ∈ xs := by
  have hlt : n % xs.length < xs.length := Nat.mod_lt _ (List.length_pos.mpr h)
  unfold choiceD
  rw [List.getD_eq_getElem?_getD, List.getElem?_eq_getElem hlt]
  exact List.getElem_mem hlt

/-! ## Lemmas about the email regeneration loop -/

/-- The value the regeneration loop returns is never one of the already-used
values: a collision is always regenerated away before insertion. -/
theorem regenEmail_fresh {emails : ℕ → String} {used : List String} :
    ∀ {fuel k e}, regenEmail emails used fuel k = some e → e ∉ used := by
  intro fuel
  induction fuel with
  | zero => intro k e h; simp [regenEmail] at h
  | succ f ih =>
    intro k e h
    rw [regenEmail] at h
    by_cases hc : emails k ∈ used
    · rw [if_pos hc] at h
      exact ih h
    · rw [if_neg hc] at h
      cases h
      exact hc

/-- The regeneration loop is monotone in fuel and its result does not depend
on the fuel that made it terminate. -/
theorem regenEmail_mono {emails : ℕ → String} {used : List String} :
    ∀ {fuel fuel' k e}, regenEmail emails used fuel k = some e → fuel ≤ fuel' →
      regenEmail emails used fuel' k = some e := by
  intro fuel
  induction fuel with
  | zero => intro fuel' k e h; simp [regenEmail] at h
  | succ f ih =>
    intro fuel' k e h hle
    obtain ⟨f', rfl⟩ : ∃ f', fuel' = f' + 1 := ⟨fuel' - 1, by omega⟩
    rw [regenEmail] at h ⊢
    by_cases hc : emails k ∈ used
    · rw [if_pos hc] at h ⊢
      exact ih h (by omega)
    · rwa [if_neg hc] at h ⊢

/-- If some candidate in the stream is fresh, the regeneration loop
terminates with enough fuel. -/
theorem regenEmail_total {emails : ℕ → String} {used : List String} :
    ∀ N k, emails (k + N) ∉ used → ∃ e, regenEmail emails used (N + 1) k = some e := by
  intro N
  induction N with
  | zero =>
    intro k hk
    rw [regenEmail]
    rw [if_neg (by simpa using hk)]
    exact ⟨_, rfl⟩
  | succ m ih =>
    intro k hk
    rw [regenEmail]
    by_cases hc : emails k ∈ used
    · rw [if_pos hc]
      exact ih (k + 1) (by rw [show k + 1 + m = k + (m + 1) by omega]; exact hk)
    · rw [if_neg hc]
      exact ⟨_, rfl⟩

/-- A non-null generated email is fresh with respect to the used set. -/
theorem genEmail_fresh {o : CustOracle} {used : List String} {fuel : ℕ} {e : String}
    (h : genEmail o used fuel = some (some e)) : e ∉ used := by
  unfold genEmail at h
  by_cases hr : o.r < 1 / 10
  · rw [if_pos hr] at h
    cases h
  · rw [if_neg hr] at h
    cases hre : regenEmail o.emails used fuel 0 with
    | none => rw [hre] at h; cases h
    | some e' =>
      rw [hre] at h
      cases h
      exact regenEmail_fresh hre

/-! ## The customer-loop invariant -/

/-- Shape invariant of the customer population loop: ids are consecutive
starting at `i + 1`, the final used set is the initial one extended by the
non-null emails in insertion order, distinctness of the used set is
preserved, and the loop inserts exactly `count` rows. -/
theorem genCustomers_spec {os : ℕ → CustOracle} {fuel : ℕ} :
    ∀ {count i used cs u}, genCustomers os fuel count i used = some (cs, u) →
      cs.map Customer.customer_id = List.range' (i + 1) count ∧
      u = used ++ cs.filterMap Customer.email ∧
      (used.Pairwise Ne → u.Pairwise Ne) ∧
      cs.length = count := by
  intro count
  induction count with
  | zero =>
    intro i used cs u h
    rw [genCustomers] at h
    cases h
    simp [List.range']
  | succ m ih =>
    intro i used cs u h
    rw [genCustomers] at h
    cases hem : genEmail (os i) used fuel with
    | none => rw [hem] at h; cases h
    | some em =>
      rw [hem] at h
      simp only at h
      cases em with
      | none =>
        cases hrec : genCustomers os fuel m (i + 1) used with
        | none => rw [hrec] at h; cases h
        | some pr =>
          rw [hrec] at h
          obtain ⟨cs', u'⟩ := pr
          simp only at h
          cases h
          obtain ⟨hids, hu, hpw, hlen⟩ := ih hrec
          refine ⟨?_, ?_, ?_, by simp [hlen]⟩
          · simp only [List.map_cons, hids, List.range'_succ]
          · simpa using hu
          · simpa using hpw
      | some e =>
        cases hrec : genCustomers os fuel m (i + 1) (used ++ [e]) with
        | none => rw [hrec] at h; cases h
        | some pr =>
          rw [hrec] at h
          obtain ⟨cs', u'⟩ := pr
          simp only at h
          cases h
          obtain ⟨hids, hu, hpw, hlen⟩ := ih hrec
          have hfresh : e ∉ used := genEmail_fresh hem
          refine ⟨?_, ?_, ?_, by simp [hlen]⟩
          · simp only [List.map_cons, hids, List.range'_succ]
          · simp only [List.filterMap_cons] at *
            simp only [hu, List.append_assoc]
            rfl
          · intro hpu
            apply hpw
            rw [List.pairwise_append]
            refine ⟨hpu, by simp, ?_⟩
            intro a ha b hb
            rw [List.mem_singleton] at hb
            subst hb
            intro hab
            exact hfresh (hab ▸ ha)

/-- Email generation is monotone in fuel. -/
theorem genEmail_mono {o : CustOracle} {used : List String} {fuel fuel' : ℕ}
    {em : Option String} (h : genEmail o used fuel = some em) (hle : fuel ≤ fuel') :
    genEmail o used fuel' = some em := by
  unfold genEmail at h ⊢
  by_cases hr : o.r < 1 / 10
  · rwa [if_pos hr] at h ⊢
  · rw [if_neg hr] at h ⊢
    cases hre : regenEmail o.emails used fuel 0 with
    | none => rw [hre] at h; cases h
    | some e =>
      rw [hre] at h
      rw [regenEmail_mono hre hle]
      exact h

/-- The customer loop is monotone in fuel. -/
theorem genCustomers_mono {os : ℕ → CustOracle} {fuel fuel' : ℕ} :
    ∀ {count i used res}, genCustomers os fuel count i used = some res →
      fuel ≤ fuel' → genCustomers os fuel' count i used = some res := by
  intro count
  induction count with
  | zero => intro i used res h _; rw [genCustomers] at h ⊢; exact h
  | succ m ih =>
    intro i used res h hle
    rw [genCustomers] at h ⊢
    cases hem : genEmail (os i) used fuel with
    | none => rw [hem] at h; cases h
    | some em =>
      rw [hem] at h
      rw [genEmail_mono hem hle]
      simp only at h ⊢
      cases em with
      | none =>
        cases hrec : genCustomers os fuel m (i + 1) used with
        | none => rw [hrec] at h; cases h
        | some pr => rw [hrec] at h; rw [ih hrec hle]; exact h
      | some e =>
        cases hrec : genCustomers os fuel m (i + 1) (used ++ [e]) with
        | none => rw [hrec] at h; cases h
        | some pr => rw [hrec] at h; rw [ih hrec hle]; exact h

/-- Termination of the customer loop: whenever every per-iteration email
stream eventually leaves any given used set, some fuel makes the whole loop
terminate. -/
theorem genCustomers_total {os : ℕ → CustOracle}
    (H : ∀ i (used : List String), ∃ n, (os i).emails n ∉ used) :
    ∀ count i used, ∃ fuel res, genCustomers os fuel count i used = some res := by
  intro count
  induction count with
  | zero => intro i used; exact ⟨0, ([], used), by rw [genCustomers]⟩
  | succ m ih =>
    intro i used
    by_cases hr : (os i).r < 1 / 10
    · obtain ⟨fuel₁, ⟨cs₁, u₁⟩, hres₁⟩ := ih (i + 1) used
      have hem : genEmail (os i) used fuel₁ = some none := by
        unfold genEmail
        rw [if_pos hr]
      refine ⟨fuel₁, (⟨i + 1, (os i).name, none, (os i).phone,
        choiceD loyalty_tiers "Bronze" (os i).tier, (os i).address,
        (os i).date⟩ :: cs₁, u₁), ?_⟩
      rw [genCustomers, hem]
      simp only
      rw [hres₁]
    · obtain ⟨n, hn⟩ := H i used
      obtain ⟨e, he⟩ := regenEmail_total n 0 (by simpa using hn)
      obtain ⟨fuel₁, ⟨cs₁, u₁⟩, hres₁⟩ := ih (i + 1) (used ++ [e])
      have hem : genEmail (os i) used (max (n + 1) fuel₁) = some (some e) := by
        unfold genEmail
        rw [if_neg hr, regenEmail_mono he (Nat.le_max_left _ _)]
        rfl
      refine ⟨max (n + 1) fuel₁, (⟨i + 1, (os i).name, some e, (os i).phone,
        choiceD loyalty_tiers "Bronze" (os i).tier, (os i).address,
        (os i).date⟩ :: cs₁, u₁), ?_⟩
      rw [genCustomers, hem]
      simp only
      rw [genCustomers_mono hres₁ (Nat.le_max_right _ _)]

/-- Rows produced by the customer loop insert without any UNIQUE(email)
violation: `insertCusts` tracks exactly the used set the loop tracked. -/
theorem genCustomers_insertOk {os : ℕ → CustOracle} {fuel : ℕ} :
    ∀ {count i used cs u}, genCustomers os fuel count i used = some (cs, u) →
      insertCusts cs used = .ok () := by
  intro count
  induction count with
  | zero =>
    intro i used cs u h
    rw [genCustomers] at h
    cases h
    rw [insertCusts]
  | succ m ih =>
    intro i used cs u h
    rw [genCustomers] at h
    cases hem : genEmail (os i) used fuel with
    | none => rw [hem] at h; cases h
    | some em =>
      rw [hem] at h
      simp only at h
      cases em with
      | none =>
        cases hrec : genCustomers os fuel m (i + 1) used with
        | none => rw [hrec] at h; cases h
        | some pr =>
          rw [hrec] at h
          obtain ⟨cs', u'⟩ := pr
          simp only at h
          cases h
          rw [insertCusts]
          exact ih hrec
      | some e =>
        cases hrec : genCustomers os fuel m (i + 1) (used ++ [e]) with
        | none => rw [hrec] at h; cases h
        | some pr =>
          rw [hrec] at h
          obtain ⟨cs', u'⟩ := pr
          simp only at h
          cases h
          rw [insertCusts]
          simp only
          rw [if_neg (genEmail_fresh hem)]
          exact ih hrec

/-! ## Employee and supplier loop invariants -/

/-- Shape invariant of the modelled employee loop: consecutive ids, the used
set extended by exactly the inserted emails, distinctness preserved. -/
theorem genEmployees_spec {os : ℕ → EmpOracle} {fuel : ℕ} :
    ∀ {count i used es u}, genEmployees os fuel count i used = some (es, u) →
      es.map Employee.employee_id = List.range' (i + 1) count ∧
      u = used ++ es.map Employee.email ∧
      (used.Pairwise Ne → u.Pairwise Ne) ∧
      es.length = count := by
  intro count
  induction count with
  | zero =>
    intro i used es u h
    rw [genEmployees] at h
    cases h
    simp [List.range']
  | succ m ih =>
    intro i used es u h
    rw [genEmployees] at h
    cases hre : regenEmail (os i).emails used fuel 0 with
    | none => rw [hre] at h; cases h
    | some e =>
      rw [hre] at h
      simp only at h
      cases hrec : genEmployees os fuel m (i + 1) (used ++ [e]) with
      | none => rw [hrec] at h; cases h
      | some pr =>
        rw [hrec] at h
        obtain ⟨es', u'⟩ := pr
        simp only at h
        cases h
        obtain ⟨hids, hu, hpw, hlen⟩ := ih hrec
        have hfresh : e ∉ used := regenEmail_fresh hre
        refine ⟨?_, ?_, ?_, by simp [hlen]⟩
        · simp only [List.map_cons, hids, List.range'_succ]
        · simp only [List.map_cons] at *
          simp only [hu, List.append_assoc]
          rfl
        · intro hpu
          apply hpw
          rw [List.pairwise_append]
          refine ⟨hpu, by simp, ?_⟩
          intro a ha b hb
          rw [List.mem_singleton] at hb
          subst hb
          intro hab
          exact hfresh (hab ▸ ha)

/-- Ids of the modelled supplier loop are consecutive from `i + 1`. -/
theorem genSuppliers_ids {os : ℕ → SupOracle} {fuel : ℕ} :
    ∀ {count i used ss u}, genSuppliers os fuel count i used = some (ss, u) →
      ss.map Supplier.supplier_id = List.range' (i + 1) count := by
  intro count
  induction count with
  | zero =>
    intro i used ss u h
    rw [genSuppliers] at h
    cases h
    simp [List.range']
  | succ m ih =>
    intro i used ss u h
    rw [genSuppliers] at h
    cases hre : regenEmail (os i).emails used fuel 0 with
    | none => rw [hre] at h; cases h
    | some e =>
      rw [hre] at h
      simp only at h
      cases hrec : genSuppliers os fuel m (i + 1) (used ++ [e]) with
      | none => rw [hrec] at h; cases h
      | some pr =>
        rw [hrec] at h
        obtain ⟨ss', u'⟩ := pr
        simp only at h
        cases h
        simp only [List.map_cons, ih hrec, List.range'_succ]

/-! ## Menu-item loop lemmas -/

/-- Every generated menu item's (name, category, ingredients) data is one of
the seven `item_category_map` entries. -/
theorem genMenuItems_entry {os : ℕ → MenuOracle} :
    ∀ {count i m}, m ∈ genMenuItems os count i →
      ∃ entry ∈ item_category_map, m.item_name = entry.1 ∧
        m.category = entry.2.1 ∧
        m.ingredients = String.intercalate ", " entry.2.2 := by
  intro count
  induction count with
  | zero => intro i m hm; rw [genMenuItems] at hm; cases hm
  | succ k ih =>
    intro i m hm
    rw [genMenuItems] at hm
    rcases List.mem_cons.mp hm with hm | hm
    · subst hm
      exact ⟨_, choiceD_mem (by simp [item_category_map]) _ _, rfl, rfl, rfl⟩
    · exact ih hm

/-- Every `item_category_map` entry has an allowed category and is neither
of the two extra names that `menu_items` lists. -/
theorem item_category_map_entries :
    ∀ entry ∈ item_category_map, entry.2.1 ∈ menu_categories ∧
      entry.1 ≠ "chef_specials" ∧ entry.1 ≠ "signature_dishes" ∧
      entry.1 ∈ menu_items := by
  decide

/-- Every generated menu item has positive price and non-negative
calories. -/
theorem genMenuItems_price_calories {os : ℕ → MenuOracle} :
    ∀ {count i m}, m ∈ genMenuItems os count i →
      0 < m.price ∧ 0 ≤ m.calories := by
  intro count
  induction count with
  | zero => intro i m hm; rw [genMenuItems] at hm; cases hm
  | succ k ih =>
    intro i m hm
    rw [genMenuItems] at hm
    rcases List.mem_cons.mp hm with hm | hm
    · subst hm
      constructor
      · exact round2_pos (le_trans (by norm_num) (uniform_ge (by norm_num) _))
      · have := (randint_bounds (a := 100) (b := 1000) (by norm_num) ((os i).cal)).1
        simp only
        omega
    · exact ih hm

/-- Ids of the menu-item loop are consecutive from `i + 1`. -/
theorem genMenuItems_ids {os : ℕ → MenuOracle} :
    ∀ count i, (genMenuItems os count i).map MenuItem.item_id =
      List.range' (i + 1) count := by
  intro count
  induction count with
  | zero => intro i; rw [genMenuItems]; simp [List.range']
  | succ k ih =>
    intro i
    rw [genMenuItems]
    simp only [List.map_cons, ih, List.range'_succ]

/-! ## Child-generator lemmas: foreign keys land in the parent id range -/

theorem genTables_fk {nE : ℕ} (hn : 0 < nE) {os : ℕ → TableOracle} :
    ∀ {count i t}, t ∈ genTables nE os count i →
      t.waiter_assigned ∈ List.range' 1 nE := by
  intro count
  induction count with
  | zero => intro i t ht; rw [genTables] at ht; cases ht
  | succ k ih =>
    intro i t ht
    rw [genTables] at ht
    rcases List.mem_cons.mp ht with ht | ht
    · subst ht; exact pickParent_mem hn _
    · exact ih ht

theorem genOrders_fk {nC : ℕ} (hn : 0 < nC) {nT : ℕ} {os : ℕ → OrderOracle} :
    ∀ {count i o}, o ∈ genOrders nC nT os count i →
      o.customer_id ∈ List.range' 1 nC := by
  intro count
  induction count with
  | zero => intro i o ho; rw [genOrders] at ho; cases ho
  | succ k ih =>
    intro i o ho
    rw [genOrders] at ho
    rcases List.mem_cons.mp ho with ho | ho
    · subst ho; exact pickParent_mem hn _
    · exact ih ho

theorem genOrders_ids {nC nT : ℕ} {os : ℕ → OrderOracle} :
    ∀ count i, (genOrders nC nT os count i).map Order.order_id =
      List.range' (i + 1) count := by
  intro count
  induction count with
  | zero => intro i; rw [genOrders]; simp [List.range']
  | succ k ih =>
    intro i
    rw [genOrders]
    simp only [List.map_cons, ih, List.range'_succ]

theorem genOrderDetails_fk {nO nI : ℕ} (hO : 0 < nO) (hI : 0 < nI)
    {os : ℕ → DetailOracle} :
    ∀ {count i d}, d ∈ genOrderDetails nO nI os count i →
      d.order_id ∈ List.range' 1 nO ∧ d.item_id ∈ List.range' 1 nI := by
  intro count
  induction count with
  | zero => intro i d hd; rw [genOrderDetails] at hd; cases hd
  | succ k ih =>
    intro i d hd
    rw [genOrderDetails] at hd
    rcases List.mem_cons.mp hd with hd | hd
    · subst hd; exact ⟨pickParent_mem hO _, pickParent_mem hI _⟩
    · exact ih hd

theorem genInventory_fk {nS : ℕ} (hn : 0 < nS) {os : ℕ → InvOracle} :
    ∀ {count i v}, v ∈ genInventory nS os count i →
      v.supplier_id ∈ List.range' 1 nS := by
  intro count
  induction count with
  | zero => intro i v hv; rw [genInventory] at hv; cases hv
  | succ k ih =>
    intro i v hv
    rw [genInventory] at hv
    rcases List.mem_cons.mp hv with hv | hv
    · subst hv; exact pickParent_mem hn _
    · exact ih hv

theorem genFeedback_fk {nC nO : ℕ} (hC : 0 < nC) (hO : 0 < nO)
    {os : ℕ → FbOracle} :
    ∀ {count i f}, f ∈ genFeedback nC nO os count i →
      f.customer_id ∈ List.range' 1 nC ∧ f.order_id ∈ List.range' 1 nO := by
  intro count
  induction count with
  | zero => intro i f hf; rw [genFeedback] at hf; cases hf
  | succ k ih =>
    intro i f hf
    rw [genFeedback] at hf
    rcases List.mem_cons.mp hf with hf | hf
    · subst hf; exact ⟨pickParent_mem hC _, pickParent_mem hO _⟩
    · exact ih hf

theorem genFeedback_rating {nC nO : ℕ} {os : ℕ → FbOracle} :
    ∀ {count i f}, f ∈ genFeedback nC nO os count i →
      1 ≤ f.rating ∧ f.rating ≤ 5 := by
  intro count
  induction count with
  | zero => intro i f hf; rw [genFeedback] at hf; cases hf
  | succ k ih =>
    intro i f hf
    rw [genFeedback] at hf
    rcases List.mem_cons.mp hf with hf | hf
    · subst hf
      exact randint_bounds (by norm_num) _
    · exact ih hf

theorem genMenuSupplier_fk {nI nS : ℕ} (hI : 0 < nI) (hS : 0 < nS)
    {os : ℕ → MSOracle} :
    ∀ {count i l}, l ∈ genMenuSupplier nI nS os count i →
      l.menu_item_id ∈ List.range' 1 nI ∧ l.supplier_id ∈ List.range' 1 nS := by
  intro count
  induction count with
  | zero => intro i l hl; rw [genMenuSupplier] at hl; cases hl
  | succ k ih =>
    intro i l hl
    rw [genMenuSupplier] at hl
    rcases List.mem_cons.mp hl with hl | hl
    · subst hl; exact ⟨pickParent_mem hI _, pickParent_mem hS _⟩
    · exact ih hl

/-! ## Referential-integrity machinery -/

theorem providedIds_append (t : Tbl) (A B : List Event) :
    providedIds t (A ++ B) = providedIds t A ++ providedIds t B :=
  List.filterMap_append A B _

theorem mem_providedIds_append_left {t : Tbl} {x : ℕ} {A : List Event}
    (B : List Event) (h : x ∈ providedIds t A) : x ∈ providedIds t (A ++ B) := by
  rw [providedIds_append]
  exact List.mem_append_left _ h

theorem mem_providedIds_append_right {t : Tbl} {x : ℕ} (A : List Event)
    {B : List Event} (h : x ∈ providedIds t B) : x ∈ providedIds t (A ++ B) := by
  rw [providedIds_append]
  exact List.mem_append_right _ h

theorem providedIds_customers (cs : List Customer) :
    providedIds .customers (cs.map Event.customer) = cs.map Customer.customer_id := by
  induction cs with
  | nil => rfl
  | cons c cs ih => simp [providedIds, Event.idOf, List.filterMap_cons] at ih ⊢; exact ih

theorem providedIds_menuItems (ms : List MenuItem) :
    providedIds .menuItems (ms.map Event.menuItem) = ms.map MenuItem.item_id := by
  induction ms with
  | nil => rfl
  | cons m ms ih => simp [providedIds, Event.idOf, List.filterMap_cons] at ih ⊢; exact ih

theorem providedIds_employees (es : List Employee) :
    providedIds .employees (es.map Event.employee) = es.map Employee.employee_id := by
  induction es with
  | nil => rfl
  | cons e es ih => simp [providedIds, Event.idOf, List.filterMap_cons] at ih ⊢; exact ih

theorem providedIds_suppliers (ss : List Supplier) :
    providedIds .suppliers (ss.map Event.supplier) = ss.map Supplier.supplier_id := by
  induction ss with
  | nil => rfl
  | cons s ss ih => simp [providedIds, Event.idOf, List.filterMap_cons] at ih ⊢; exact ih

theorem providedIds_orders (os : List Order) :
    providedIds .orders (os.map Event.order) = os.map Order.order_id := by
  induction os with
  | nil => rfl
  | cons o os ih => simp [providedIds, Event.idOf, List.filterMap_cons] at ih ⊢; exact ih

/-- A block of rows is insertable after a prefix `A`: every reference it
carries resolves among the ids `A` provides. -/
def BlockOk (A B : List Event) : Prop :=
  ∀ e ∈ B, ∀ p ∈ e.refs, p.2 ∈ providedIds p.1 A

theorem parentBeforeChild_nil : ParentBeforeChild [] := by
  intro i e h
  simp at h

/-- Appending a block whose references all resolve in the prefix preserves
referential integrity of the insertion sequence. -/
theorem parentBeforeChild_append {A B : List Event}
    (hA : ParentBeforeChild A) (hB : BlockOk A B) :
    ParentBeforeChild (A ++ B) := by
  intro i e hi p hp
  rw [List.getElem?_append] at hi
  by_cases hlt : i < A.length
  · rw [if_pos hlt] at hi
    have := hA i e hi p hp
    rwa [List.take_append_eq_append_take,
      Nat.sub_eq_zero_of_le (le_of_lt hlt), List.take_zero,
      List.append_nil]
  · rw [if_neg hlt] at hi
    have he : e ∈ B := List.getElem?_mem hi
    have hmem := hB e he p hp
    rw [List.take_append_eq_append_take,
      List.take_of_length_le (le_of_not_lt hlt)]
    exact mem_providedIds_append_left _ hmem

theorem blockOk_of_refs_nil {A B : List Event}
    (h : ∀ e ∈ B, e.refs = []) : BlockOk A B := by
  intro e he p hp
  rw [h e he] at hp
  cases hp

theorem blockOk_append_left {A A' B : List Event} (h : BlockOk A B) :
    BlockOk (A ++ A') B := by
  intro e he p hp
  exact mem_providedIds_append_left _ (h e he p hp)

/-! ## Run destructuring -/

/-- Unfolding a successful run into its per-table generator equations. -/
theorem runScript_eq {o : RunOracle} {c : RunCounts} {fuel : ℕ} {r : RunResult}
    (h : runScript o c fuel = some r) :
    ∃ used1 u2 u3,
      genCustomers o.cust fuel 1500 0 [] = some (r.customers, used1) ∧
      r.menuItems = genMenuItems o.menu 100 0 ∧
      genEmployees o.emp fuel c.nEmployees 0 used1 = some (r.employees, u2) ∧
      genSuppliers o.sup fuel c.nSuppliers 0 [] = some (r.suppliers, u3) ∧
      r.tables = genTables c.nEmployees o.tabs c.nTables 0 ∧
      r.orders = genOrders 1500 c.nTables o.ords c.nOrders 0 ∧
      r.orderDetails = genOrderDetails c.nOrders 100 o.dets c.nDetails 0 ∧
      r.inventory = genInventory c.nSuppliers o.inv c.nInventory 0 ∧
      r.feedback = genFeedback 1500 c.nOrders o.fb c.nFeedback 0 ∧
      r.menuSupplier = genMenuSupplier 100 c.nSuppliers o.ms c.nMS 0 := by
  unfold runScript at h
  cases hc : genCustomers o.cust fuel 1500 0 [] with
  | none => rw [hc] at h; cases h
  | some pc =>
    rw [hc] at h
    obtain ⟨cs, used1⟩ := pc
    simp only at h
    cases he : genEmployees o.emp fuel c.nEmployees 0 used1 with
    | none => rw [he] at h; cases h
    | some pe =>
      rw [he] at h
      obtain ⟨es, u2⟩ := pe
      simp only at h
      cases hs : genSuppliers o.sup fuel c.nSuppliers 0 [] with
      | none => rw [hs] at h; cases h
      | some ps =>
        rw [hs] at h
        obtain ⟨ss, u3⟩ := ps
        simp only at h
        cases h
        exact ⟨used1, u2, u3, rfl, rfl, he, rfl, rfl, rfl, rfl, rfl, rfl, rfl⟩

theorem parentBeforeChild_of_refs_nil {A : List Event}
    (h : ∀ e ∈ A, e.refs = []) : ParentBeforeChild A := by
  intro i e hi p hp
  rw [h e (List.getElem?_mem hi)] at hp
  cases hp

/-! ## Claim theorems -/

/-- C1: for every child row the run inserts (Orders, Order_Details, Feedback,
Inventory, Tables, Menu_Supplier), the foreign-key value equals the surrogate
identity of a parent row inserted strictly earlier in the insertion sequence:
the whole run is parent-before-child. -/
theorem c1_parent_before_child {o : RunOracle} {c : RunCounts} {fuel : ℕ}
    {r : RunResult} (h : runScript o c fuel = some r)
    (hE : 0 < c.nEmployees) (hS : 0 < c.nSuppliers) (hOr : 0 < c.nOrders) :
    ParentBeforeChild (runEvents r) := by
  obtain ⟨used1, u2, u3, hc, hm, he, hs, ht, ho, hd, hi, hf, hms⟩ := runScript_eq h
  obtain ⟨hcids, -, -, -⟩ := genCustomers_spec hc
  obtain ⟨heids, -, -, -⟩ := genEmployees_spec he
  have hsids := genSuppliers_ids hs
  set B1 := r.customers.map Event.customer with hB1
  set B2 := r.menuItems.map Event.menuItem with hB2
  set B3 := r.employees.map Event.employee with hB3
  set B4 := r.suppliers.map Event.supplier with hB4
  set B5 := r.tables.map Event.tableRow with hB5
  set B6 := r.orders.map Event.order with hB6
  set B7 := r.orderDetails.map Event.orderDetail with hB7
  set B8 := r.inventory.map Event.inventory with hB8
  set B9 := r.feedback.map Event.feedback with hB9
  set B10 := r.menuSupplier.map Event.menuSupplier with hB10
  have hprovC : providedIds Tbl.customers B1 = List.range' 1 1500 := by
    rw [hB1, providedIds_customers]
    simpa using hcids
  have hprovM : providedIds Tbl.menuItems B2 = List.range' 1 100 := by
    rw [hB2, providedIds_menuItems, hm]
    simpa using genMenuItems_ids 100 0
  have hprovE : providedIds Tbl.employees B3 = List.range' 1 c.nEmployees := by
    rw [hB3, providedIds_employees]
    simpa using heids
  have hprovS : providedIds Tbl.suppliers B4 = List.range' 1 c.nSuppliers := by
    rw [hB4, providedIds_suppliers]
    simpa using hsids
  have hprovO : providedIds Tbl.orders B6 = List.range' 1 c.nOrders := by
    rw [hB6, providedIds_orders, ho]
    simpa using genOrders_ids c.nOrders 0
  have pbc1 : ParentBeforeChild B1 := by
    apply parentBeforeChild_of_refs_nil
    intro e heB
    rw [hB1] at heB
    obtain ⟨x, -, rfl⟩ := List.mem_map.mp heB
    rfl
  have pbc2 : ParentBeforeChild (B1 ++ B2) := by
    refine parentBeforeChild_append pbc1 (blockOk_of_refs_nil ?_)
    intro e heB
    rw [hB2] at heB
    obtain ⟨x, -, rfl⟩ := List.mem_map.mp heB
    rfl
  have pbc3 : ParentBeforeChild ((B1 ++ B2) ++ B3) := by
    refine parentBeforeChild_append pbc2 (blockOk_of_refs_nil ?_)
    intro e heB
    rw [hB3] at heB
    obtain ⟨x, -, rfl⟩ := List.mem_map.mp heB
    rfl
  have pbc4 : ParentBeforeChild (((B1 ++ B2) ++ B3) ++ B4) := by
    refine parentBeforeChild_append pbc3 (blockOk_of_refs_nil ?_)
    intro e heB
    rw [hB4] at heB
    obtain ⟨x, -, rfl⟩ := List.mem_map.mp heB
    rfl
  have pbc5 : ParentBeforeChild ((((B1 ++ B2) ++ B3) ++ B4) ++ B5) := by
    refine parentBeforeChild_append pbc4 ?_
    intro e heB p hp
    rw [hB5] at heB
    obtain ⟨t, htm, rfl⟩ := List.mem_map.mp heB
    simp only [Event.refs, List.mem_singleton] at hp
    subst hp
    have hx : t.waiter_assigned ∈ providedIds Tbl.employees B3 := by
      rw [hprovE]
      exact genTables_fk hE (ht ▸ htm)
    simp only [providedIds_append, List.mem_append]
    tauto
  have pbc6 : ParentBeforeChild (((((B1 ++ B2) ++ B3) ++ B4) ++ B5) ++ B6) := by
    refine parentBeforeChild_append pbc5 ?_
    intro e heB p hp
    rw [hB6] at heB
    obtain ⟨x, hxm, rfl⟩ := List.mem_map.mp heB
    simp only [Event.refs, List.mem_singleton] at hp
    subst hp
    have hx : x.customer_id ∈ providedIds Tbl.customers B1 := by
      rw [hprovC]
      exact genOrders_fk (by norm_num) (ho ▸ hxm)
    simp only [providedIds_append, List.mem_append]
    tauto
  have pbc7 : ParentBeforeChild ((((((B1 ++ B2) ++ B3) ++ B4) ++ B5) ++ B6) ++ B7) := by
    refine parentBeforeChild_append pbc6 ?_
    intro e heB p hp
    rw [hB7] at heB
    obtain ⟨x, hxm, rfl⟩ := List.mem_map.mp heB
    have hfk := genOrderDetails_fk hOr (by norm_num) (hd ▸ hxm)
    simp only [Event.refs, List.mem_cons, List.mem_singleton] at hp
    rcases hp with hp | hp
    · subst hp
      have hx : x.order_id ∈ providedIds Tbl.orders B6 := by
        rw [hprovO]; exact hfk.1
      simp only [providedIds_append, List.mem_append]
      tauto
    · rcases hp with hp | hp
      · subst hp
        have hx : x.item_id ∈ providedIds Tbl.menuItems B2 := by
          rw [hprovM]; exact hfk.2
        simp only [providedIds_append, List.mem_append]
        tauto
      · cases hp
  have pbc8 : ParentBeforeChild
      (((((((B1 ++ B2) ++ B3) ++ B4) ++ B5) ++ B6) ++ B7) ++ B8) := by
    refine parentBeforeChild_append pbc7 ?_
    intro e heB p hp
    rw [hB8] at heB
    obtain ⟨x, hxm, rfl⟩ := List.mem_map.mp heB
    simp only [Event.refs, List.mem_singleton] at hp
    subst hp
    have hx : x.supplier_id ∈ providedIds Tbl.suppliers B4 := by
      rw [hprovS]
      exact genInventory_fk hS (hi ▸ hxm)
    simp only [providedIds_append, List.mem_append]
    tauto
  have pbc9 : ParentBeforeChild
      ((((((((B1 ++ B2) ++ B3) ++ B4) ++ B5) ++ B6) ++ B7) ++ B8) ++ B9) := by
    refine parentBeforeChild_append pbc8 ?_
    intro e heB p hp
    rw [hB9] at heB
    obtain ⟨x, hxm, rfl⟩ := List.mem_map.mp heB
    have hfk := genFeedback_fk (by norm_num) hOr (hf ▸ hxm)
    simp only [Event.refs, List.mem_cons, List.mem_singleton] at hp
    rcases hp with hp | hp
    · subst hp
      have hx : x.customer_id ∈ providedIds Tbl.customers B1 := by
        rw [hprovC]; exact hfk.1
      simp only [providedIds_append, List.mem_append]
      tauto
    · rcases hp with hp | hp
      · subst hp
        have hx : x.order_id ∈ providedIds Tbl.orders B6 := by
          rw [hprovO]; exact hfk.2
        simp only [providedIds_append, List.mem_append]
        tauto
      · cases hp
  have pbc10 : ParentBeforeChild
      (((((((((B1 ++ B2) ++ B3) ++ B4) ++ B5) ++ B6) ++ B7) ++ B8) ++ B9) ++ B10) := by
    refine parentBeforeChild_append pbc9 ?_
    intro e heB p hp
    rw [hB10] at heB
    obtain ⟨x, hxm, rfl⟩ := List.mem_map.mp heB
    have hfk := genMenuSupplier_fk (by norm_num) hS (hms ▸ hxm)
    simp only [Event.refs, List.mem_cons, List.mem_singleton] at hp
    rcases hp with hp | hp
    · subst hp
      have hx : x.menu_item_id ∈ providedIds Tbl.menuItems B2 := by
        rw [hprovM]; exact hfk.1
      simp only [providedIds_append, List.mem_append]
      tauto
    · rcases hp with hp | hp
      · subst hp
        have hx : x.supplier_id ∈ providedIds Tbl.suppliers B4 := by
          rw [hprovS]; exact hfk.2
        simp only [providedIds_append, List.mem_append]
        tauto
      · cases hp
  have hre : runEvents r =
      (((((((((B1 ++ B2) ++ B3) ++ B4) ++ B5) ++ B6) ++ B7) ++ B8) ++ B9) ++ B10) := by
    rw [hB1, hB2, hB3, hB4, hB5, hB6, hB7, hB8, hB9, hB10]
    simp [runEvents, List.append_assoc]
  rw [hre]
  exact pbc10

/-- C2: across all Customer and Employee rows of one run, any two distinct
rows with non-null emails carry distinct email values; NULL customer emails
are exempt (they are dropped by `filterMap`). -/
theorem c2_emails_unique {o : RunOracle} {c : RunCounts} {fuel : ℕ}
    {r : RunResult} (h : runScript o c fuel = some r) :
    (r.customers.filterMap Customer.email
      ++ r.employees.map Employee.email).Pairwise Ne := by
  obtain ⟨used1, u2, u3, hc, hm, he, hs, ht, ho, hd, hi, hf, hms⟩ := runScript_eq h
  obtain ⟨-, hu1, hpw1, -⟩ := genCustomers_spec hc
  obtain ⟨-, hu2, hpw2, -⟩ := genEmployees_spec he
  have h1 : used1 = r.customers.filterMap Customer.email := by simpa using hu1
  have h2 : u2 = r.customers.filterMap Customer.email
      ++ r.employees.map Employee.email := by rw [hu2, h1]
  have hp : u2.Pairwise Ne := hpw2 (hpw1 List.Pairwise.nil)
  exact h2 ▸ hp

/-- C3: a freshly drawn customer email colliding with a used value is
regenerated locally until fresh (the regeneration loop never returns a used
value), and consequently the rows the customer loop emits insert without any
UNIQUE(email) violation: a generation-time collision never becomes an
insertion error. -/
theorem c3_collision_regenerated :
    (∀ (emails : ℕ → String) (used : List String) (fuel k : ℕ) (e : String),
        regenEmail emails used fuel k = some e → e ∉ used) ∧
    (∀ (os : ℕ → CustOracle) (fuel count i : ℕ) (cs : List Customer)
        (u : List String), genCustomers os fuel count i [] = some (cs, u) →
        insertCusts cs [] = .ok ()) := by
  constructor
  · intro emails used fuel k e hre
    exact regenEmail_fresh hre
  · intro os fuel count i cs u hgen
    exact genCustomers_insertOk hgen

/-- C4: a complete run inserts exactly 1500 Customer rows, and every Order
row carries a customer_id between 1 and 1500 that occurs among the inserted
customers' ids. -/
theorem c4_customers_1500_orders_resolve {o : RunOracle} {c : RunCounts}
    {fuel : ℕ} {r : RunResult} (h : runScript o c fuel = some r) :
    r.customers.length = 1500 ∧
    ∀ x ∈ r.orders, 1 ≤ x.customer_id ∧ x.customer_id ≤ 1500 ∧
      x.customer_id ∈ r.customers.map Customer.customer_id := by
  obtain ⟨used1, u2, u3, hc, hm, he, hs, ht, ho, hd, hi, hf, hms⟩ := runScript_eq h
  obtain ⟨hcids, -, -, hclen⟩ := genCustomers_spec hc
  have hcids' : r.customers.map Customer.customer_id = List.range' 1 1500 := by
    simpa using hcids
  refine ⟨hclen, ?_⟩
  intro x hx
  have hmem : x.customer_id ∈ List.range' 1 1500 :=
    genOrders_fk (by norm_num) (ho ▸ hx)
  have hb := List.mem_range'_1.mp hmem
  exact ⟨hb.1, by omega, by rw [hcids']; exact hmem⟩

/-- C5: every Menu_Items row the population loop emits has price > 0 and
calories ≥ 0. -/
theorem c5_menu_price_calories (os : ℕ → MenuOracle) (count i : ℕ) :
    ∀ m ∈ genMenuItems os count i, 0 < m.price ∧ 0 ≤ m.calories := by
  intro m hm
  exact genMenuItems_price_calories hm

/-- C6: every Feedback row present in the output of a successful run has a
rating in {1, 2, 3, 4, 5}. -/
theorem c6_feedback_rating {o : RunOracle} {c : RunCounts} {fuel : ℕ}
    {r : RunResult} (h : runScript o c fuel = some r) :
    ∀ f ∈ r.feedback, f.rating ∈ ([1, 2, 3, 4, 5] : List ℤ) := by
  obtain ⟨used1, u2, u3, hc, hm, he, hs, ht, ho, hd, hi, hf, hms⟩ := runScript_eq h
  intro f hfm
  have hb := genFeedback_rating (hf ▸ hfm)
  simp only [List.mem_cons, List.not_mem_nil, or_false]
  omega

/-- C7: if any single INSERT raises a constraint violation (check,
foreign-key or uniqueness, as `rowOk` encodes them), the run aborts with
that row as the fatal error, and since the single commit only happens after
every INSERT has succeeded, the persisted rows stay exactly what they were
when the insertion phase began. -/
theorem c7_abort_no_commit (persisted evs : List Event) (bad : Event)
    (h : insertAll evs [] = .error bad) :
    commitRun persisted evs = persisted := by
  unfold commitRun
  rw [h]

/-- C8: the script unconditionally empties all eleven tables of
`tables_to_drop` before repopulating, so a listed table's final contents are
independent of whatever the database file held before the run: prior rows
are discarded and replaced, never appended to. -/
theorem c8_clean_slate (db1 db2 : DBFile) (o : RunOracle) (c : RunCounts)
    (fuel : ℕ) (t : String) (htd : t ∈ tables_to_drop) :
    dropPhase db1 t = [] ∧
    (scriptRun db1 o c fuel).map (fun s => s t)
      = (scriptRun db2 o c fuel).map (fun s => s t) ∧
    tables_to_drop.length = 11 := by
  refine ⟨?_, ?_, rfl⟩
  · unfold dropPhase
    rw [if_pos htd]
  · unfold scriptRun
    cases runScript o c fuel with
    | none => rfl
    | some r => simp [htd]

/-- C9: every generated Menu_Items row draws its (item_name, category,
ingredients) triple from the seven-entry `item_category_map`; hence its
category is one of the five CHECK-allowed values, and the extra names
"chef_specials" and "signature_dishes", though listed in `menu_items`, are
never inserted. -/
theorem c9_menu_from_map (os : ℕ → MenuOracle) (count i : ℕ) :
    ("chef_specials" ∈ menu_items ∧ "signature_dishes" ∈ menu_items) ∧
    ∀ m ∈ genMenuItems os count i,
      (∃ entry ∈ item_category_map, m.item_name = entry.1 ∧
        m.category = entry.2.1 ∧
        m.ingredients = String.intercalate ", " entry.2.2) ∧
      m.category ∈ menu_categories ∧
      m.item_name ≠ "chef_specials" ∧ m.item_name ≠ "signature_dishes" := by
  refine ⟨by decide, ?_⟩
  intro m hm
  obtain ⟨entry, hent, hname, hcat, hing⟩ := genMenuItems_entry hm
  have hfacts := item_category_map_entries entry hent
  refine ⟨⟨entry, hent, hname, hcat, hing⟩, ?_, ?_, ?_⟩
  · rw [hcat]
    exact hfacts.1
  · rw [hname]
    exact hfacts.2.1
  · rw [hname]
    exact hfacts.2.2.1

/-- C10: whenever each iteration's email stream eventually produces a value
outside any given used set, the inner regeneration while-loop and hence the
whole 1500-iteration customer loop terminate: some fuel makes the loop
return exactly 1500 rows. -/
theorem c10_customer_loop_terminates {os : ℕ → CustOracle}
    (H : ∀ i (used : List String), ∃ n, (os i).emails n ∉ used) :
    ∃ fuel cs u, genCustomers os fuel 1500 0 [] = some (cs, u) ∧
      cs.length = 1500 := by
  obtain ⟨fuel, ⟨cs, u⟩, hres⟩ := genCustomers_total H 1500 0 []
  exact ⟨fuel, cs, u, hres, (genCustomers_spec hres).2.2.2⟩

/-! ## Witness-support lemmas -/

/-- Running the customer loop on the always-NULL oracle yields exactly the
`nullCustomers` rows and leaves the used set unchanged. -/
theorem genCustomers_null (fuel : ℕ) :
    ∀ n i used, genCustomers (fun _ => custOracleNull) fuel n i used =
      some (nullCustomers n i, used) := by
  intro n
  induction n with
  | zero =>
    intro i used
    rw [genCustomers, nullCustomers]
  | succ m ih =>
    intro i used
    rw [genCustomers]
    have hem : genEmail custOracleNull used fuel = some none := by
      unfold genEmail
      rw [if_pos (by norm_num [custOracleNull] : custOracleNull.r < 1 / 10)]
    simp only [hem, ih]
    rw [nullCustomers]
    rfl

theorem le_foldr_max (l : List ℕ) : ∀ x ∈ l, x ≤ l.foldr max 0 := by
  induction l with
  | nil => intro x hx; cases hx
  | cons a l ih =>
    intro x hx
    simp only [List.foldr_cons]
    rcases List.mem_cons.mp hx with rfl | hx
    · exact le_max_left _ _
    · exact (ih x hx).trans (le_max_right _ _)

/-- A string of more letters 'a' than any member's length escapes any finite
used set. -/
theorem replicate_escape (used : List String) :
    String.mk (List.replicate ((used.map String.length).foldr max 0 + 1) 'a')
      ∉ used := by
  intro hmem
  have h1 : (String.mk (List.replicate
      ((used.map String.length).foldr max 0 + 1) 'a')).length =
      (used.map String.length).foldr max 0 + 1 := by
    simp [String.length]
  have h2 := List.mem_map_of_mem String.length hmem
  have h3 := le_foldr_max _ _ h2
  rw [h1] at h3
  omega

/-- Evaluation of the full run on the concrete witness oracle. -/
theorem witnessRun_eq :
    runScript witnessOracle witnessCounts 1 = some witnessRunResult := by
  unfold runScript
  have hcust : genCustomers witnessOracle.cust 1 1500 0 [] =
      some (nullCustomers 1500 0, []) := by
    have h : witnessOracle.cust = fun _ => custOracleNull := rfl
    rw [h]
    exact genCustomers_null 1 1500 0 []
  rw [hcust]
  rfl

/-- Evaluation of the two-iteration collision run: the second draw collides
with "a" and is regenerated to "b". -/
theorem genCustomersAB_eq :
    genCustomers (fun _ => custOracleAB) 2 2 0 [] =
      some ([⟨1, "n", some "a", "p", "Bronze", "x", "d"⟩,
             ⟨2, "n", some "b", "p", "Bronze", "x", "d"⟩], ["a", "b"]) := by
  have hem1 : genEmail custOracleAB [] 2 = some (some "a") := by
    unfold genEmail
    rw [if_neg (by norm_num [custOracleAB])]
    rfl
  have hem2 : genEmail custOracleAB ["a"] 2 = some (some "b") := by
    unfold genEmail
    rw [if_neg (by norm_num [custOracleAB])]
    rfl
  rw [genCustomers]
  simp only [hem1]
  rw [genCustomers]
  simp only [List.nil_append, hem2]
  rw [genCustomers]
  rfl

/-- The single order the witness run generates. -/
theorem witnessOrders_eq : witnessRunResult.orders = [witnessOrder] := rfl

/-- The single menu item a one-iteration menu loop generates. -/
theorem witnessMenu_eq :
    genMenuItems witnessOracle.menu 1 0 = [witnessMenuItem] := rfl

/-- The single feedback row the witness run generates. -/
theorem witnessFeedback_eq :
    witnessRunResult.feedback = [witnessFeedback] := rfl

/-! ## Witnesses -/

/-- Witness for C1 at the concrete run. -/
theorem c1_parent_before_child_witness :
    ParentBeforeChild (runEvents witnessRunResult) :=
  c1_parent_before_child witnessRun_eq (by decide) (by decide) (by decide)

/-- Witness for C2 at the concrete run. -/
theorem c2_emails_unique_witness :
    (witnessRunResult.customers.filterMap Customer.email
      ++ witnessRunResult.employees.map Employee.email).Pairwise Ne :=
  c2_emails_unique witnessRun_eq

/-- Witness for C3: the loop regenerates the collision on "a" into "b", and
the two-row insertion sequence (with an actual collision during generation)
inserts without error. -/
theorem c3_collision_regenerated_witness :
    ("b" ∉ (["a"] : List String)) ∧
    insertCusts [⟨1, "n", some "a", "p", "Bronze", "x", "d"⟩,
      ⟨2, "n", some "b", "p", "Bronze", "x", "d"⟩] [] = .ok () :=
  ⟨c3_collision_regenerated.1 (fun k => if k = 0 then "a" else "b")
      ["a"] 2 0 "b" (by decide),
   c3_collision_regenerated.2 (fun _ => custOracleAB) 2 2 0
      [⟨1, "n", some "a", "p", "Bronze", "x", "d"⟩,
       ⟨2, "n", some "b", "p", "Bronze", "x", "d"⟩] ["a", "b"]
      genCustomersAB_eq⟩

/-- Witness for C4 at the concrete run. -/
theorem c4_customers_1500_orders_resolve_witness :
    witnessRunResult.customers.length = 1500 ∧
    (1 ≤ witnessOrder.customer_id ∧ witnessOrder.customer_id ≤ 1500 ∧
      witnessOrder.customer_id ∈
        witnessRunResult.customers.map Customer.customer_id) :=
  ⟨(c4_customers_1500_orders_resolve witnessRun_eq).1,
   (c4_customers_1500_orders_resolve witnessRun_eq).2 witnessOrder
     (by rw [witnessOrders_eq]; exact List.mem_singleton_self _)⟩

/-- Witness for C5 at a concrete generated menu item. -/
theorem c5_menu_price_calories_witness :
    0 < witnessMenuItem.price ∧ 0 ≤ witnessMenuItem.calories :=
  c5_menu_price_calories witnessOracle.menu 1 0 witnessMenuItem
    (by rw [witnessMenu_eq]; exact List.mem_singleton_self _)

/-- Witness for C6 at the concrete run. -/
theorem c6_feedback_rating_witness :
    witnessFeedback.rating ∈ ([1, 2, 3, 4, 5] : List ℤ) :=
  c6_feedback_rating witnessRun_eq witnessFeedback
    (by rw [witnessFeedback_eq]; exact List.mem_singleton_self _)

/-- Witness for C7: a feedback row with rating 9 aborts the insertion phase
and leaves the persisted rows untouched. -/
theorem c7_abort_no_commit_witness :
    commitRun (priorDB "Customers") [badFeedbackEvent] = priorDB "Customers" :=
  c7_abort_no_commit (priorDB "Customers") [badFeedbackEvent] badFeedbackEvent
    (by rfl)

/-- Witness for C8 on the Customers table and a nonempty prior database. -/
theorem c8_clean_slate_witness :
    dropPhase priorDB "Customers" = [] ∧
    (scriptRun priorDB witnessOracle witnessCounts 1).map (fun s => s "Customers")
      = (scriptRun (fun _ => []) witnessOracle witnessCounts 1).map
          (fun s => s "Customers") ∧
    tables_to_drop.length = 11 :=
  c8_clean_slate priorDB (fun _ => []) witnessOracle witnessCounts 1
    "Customers" (by decide)

/-- Witness for C9 at a concrete generated menu item. -/
theorem c9_menu_from_map_witness :
    witnessMenuItem.category ∈ menu_categories ∧
    witnessMenuItem.item_name ≠ "chef_specials" ∧
    witnessMenuItem.item_name ≠ "signature_dishes" :=
  ((c9_menu_from_map witnessOracle.menu 1 0).2 witnessMenuItem
    (by rw [witnessMenu_eq]; exact List.mem_singleton_self _)).2

/-- Witness for C10 on an oracle whose candidate streams are injective. -/
theorem c10_customer_loop_terminates_witness :
    ∃ fuel cs u, genCustomers (fun _ => custOracleInj) fuel 1500 0 [] =
      some (cs, u) ∧ cs.length = 1500 :=
  c10_customer_loop_terminates (fun _ used => ⟨_, replicate_escape used⟩)

end Restaurant
